import Mathlib

/-!
# zepto-proxy: the context-window compression pipeline of `main.go`

A shallow embedding of `summarizeEarly`, `compressMessages` and `proxyHandler`.

* A Go `string` is a sequence of bytes: `len` counts bytes and `s[:k]` cuts bytes.
* The outside world (the JSON codec of the standard library and the gateway reached through
  `http.DefaultClient.Do`) is a parameter, `World`; every theorem quantifies over it.
* Every function that may call the gateway threads the list of requests handed to
  `http.DefaultClient.Do` so far, so that "no call is made" is a statement about that list.
* The body of an outgoing request is the document made by `json.Marshal`, represented by the
  `ChatRequest` that a JSON decoder reads back from it (`Marshal`); the encoder writes U+FFFD
  for every byte that is not part of a well-formed UTF-8 character.
-/

namespace ZeptoProxy

/-! ## Strings -/

/-- Go strings are byte sequences. -/
abbrev GoString := List UInt8

/-- Bytes of a string literal of the (UTF-8 encoded) source file. -/
def lit (s : String) : GoString := s.toUTF8.data.toList

/-- Go's `strings.Join`: the empty string for no elements, otherwise the first element followed,
for every later element, by the separator and that element. -/
def Join : List GoString → GoString → GoString
  | [], _ => []
  | a :: rest, sep => rest.foldl (fun b s => b ++ (sep ++ s)) a

/-- Go's `strings.Repeat`. -/
def Repeat (s : GoString) : Nat → GoString
  | 0 => []
  | n + 1 => s ++ Repeat s n

/-- Number of characters (code points) of a well-formed UTF-8 string: every byte except the
continuation bytes `0x80..0xBF` starts one character. -/
def runeCount (s : GoString) : Nat :=
  s.countP (fun b => !(decide (128 ≤ b.toNat) && decide (b.toNat < 192)))

/-- Width in bytes of the white-space character (in the sense of Go's `unicode.IsSpace`) that
starts the string, `0` when the string does not start with one. -/
def spaceWidth : GoString → Nat
  | [] => 0
  | a :: rest =>
    if a == 9 || a == 10 || a == 11 || a == 12 || a == 13 || a == 32 then 1
    else match rest with
      | [] => 0
      | b :: rest2 =>
        -- U+0085, U+00A0
        if a == 0xC2 && (b == 0x85 || b == 0xA0) then 2
        else match rest2 with
          | [] => 0
          | c :: _ =>
            -- U+1680
            if a == 0xE1 && b == 0x9A && c == 0x80 then 3
            -- U+2000..U+200A, U+2028, U+2029, U+202F
            else if a == 0xE2 && b == 0x80 &&
                ((decide (0x80 ≤ c.toNat) && decide (c.toNat ≤ 0x8A)) ||
                  c == 0xA8 || c == 0xA9 || c == 0xAF) then 3
            -- U+205F
            else if a == 0xE2 && b == 0x81 && c == 0x9F then 3
            -- U+3000
            else if a == 0xE3 && b == 0x80 && c == 0x80 then 3
            else 0

/-- Width in bytes of the white-space character that ends the string whose bytes are given in
reverse order, `0` when there is none. -/
def spaceWidthRev : GoString → Nat
  | [] => 0
  | c :: rest =>
    if c == 9 || c == 10 || c == 11 || c == 12 || c == 13 || c == 32 then 1
    else match rest with
      | [] => 0
      | b :: rest2 =>
        if b == 0xC2 && (c == 0x85 || c == 0xA0) then 2
        else match rest2 with
          | [] => 0
          | a :: _ => if spaceWidth [a, b, c] == 3 then 3 else 0

/-- Repeatedly remove the character measured by `width` from the front. Every round removes at
least one byte, so `fuel = length` rounds are enough. -/
def trimLoop (width : GoString → Nat) : Nat → GoString → GoString
  | 0, s => s
  | fuel + 1, s =>
    match width s with
    | 0 => s
    | k + 1 => trimLoop width fuel (s.drop (k + 1))

/-- Go's `strings.TrimSpace`: leading and trailing white space removed. -/
def TrimSpace (s : GoString) : GoString :=
  let l := trimLoop spaceWidth s.length s
  (trimLoop spaceWidthRev l.length l.reverse).reverse

/-! ## UTF-8 and the JSON encoder -/

/-- The decoding table of Go's `unicode/utf8` for a first byte: the length of the encoding it
starts and the range allowed for the second byte; length `0` for a byte that starts none. -/
def leadInfo (a : Nat) : Nat × Nat × Nat :=
  if a < 0x80 then (1, 0, 0)
  else if 0xC2 ≤ a ∧ a ≤ 0xDF then (2, 0x80, 0xBF)
  else if a = 0xE0 then (3, 0xA0, 0xBF)
  else if a = 0xED then (3, 0x80, 0x9F)
  else if 0xE1 ≤ a ∧ a ≤ 0xEF then (3, 0x80, 0xBF)
  else if a = 0xF0 then (4, 0x90, 0xBF)
  else if 0xF1 ≤ a ∧ a ≤ 0xF3 then (4, 0x80, 0xBF)
  else if a = 0xF4 then (4, 0x80, 0x8F)
  else (0, 0, 0)

/-- Whether a byte is present and lies in `lo..hi`. -/
def byteIn (lo hi : Nat) : Option UInt8 → Bool
  | none => false
  | some b => decide (lo ≤ b.toNat) && decide (b.toNat ≤ hi)

/-- Go's `utf8.DecodeRuneInString`, as the width of the well-formed character that starts the
string; `0` stands for the result `(RuneError, 1)` and for the empty string. -/
def runeWidth (s : GoString) : Nat :=
  match s with
  | [] => 0
  | a :: _ =>
    let info := leadInfo a.toNat
    if info.1 ≤ 1 then info.1
    else if byteIn info.2.1 info.2.2 s[1]? &&
        (decide (info.1 < 3) || byteIn 0x80 0xBF s[2]?) &&
        (decide (info.1 < 4) || byteIn 0x80 0xBF s[3]?) then info.1
    else 0

/-- The encoding of U+FFFD, the replacement character. -/
def replacementChar : GoString := [0xEF, 0xBF, 0xBD]

/-- The string that the JSON text written by Go's encoder for `s` denotes, read from the byte
at which `skip` bytes of an accepted character are still to be copied: a well-formed character
is kept, and a byte that starts none is written as U+FFFD. -/
def sanitize : Nat → GoString → GoString
  | _, [] => []
  | skip + 1, b :: rest => b :: sanitize skip rest
  | 0, b :: rest =>
    match runeWidth (b :: rest) with
    | 0 => replacementChar ++ sanitize 0 rest
    | k + 1 => b :: sanitize k rest

/-- The function `sanitize` written as a loop that appends to the output `acc`, kept in reverse
order. -/
def sanitizeAcc : Nat → GoString → GoString → GoString
  | _, [], acc => acc.reverse
  | skip + 1, b :: rest, acc => sanitizeAcc skip rest (b :: acc)
  | 0, b :: rest, acc =>
    match runeWidth (b :: rest) with
    | 0 => sanitizeAcc 0 rest (replacementChar.reverse ++ acc)
    | k + 1 => sanitizeAcc k rest (b :: acc)

/-- What `json.Marshal` makes of a Go string, as the string that a JSON decoder reads back. -/
def jsonString (s : GoString) : GoString := sanitizeAcc 0 s []

/-- Whether the string is well-formed UTF-8, read like `sanitize`: from a byte at which `skip`
bytes of an accepted character are still to be passed. -/
def validFrom : Nat → GoString → Bool
  | _, [] => true
  | skip + 1, _ :: rest => validFrom skip rest
  | 0, b :: rest =>
    match runeWidth (b :: rest) with
    | 0 => false
    | k + 1 => validFrom k rest

/-- Go's `utf8.ValidString`. -/
def ValidString (s : GoString) : Bool := validFrom 0 s

/-! ## Constants and data model -/

def GatewayURL : GoString := lit "https://ai-gateway.qqq-7fd.workers.dev/v1/chat/completions"
def GatewayAPIKey : GoString := lit "xlt2026"
def SummarizeModel : GoString := lit "gpt-4o-mini"
def MaxRecentMsgs : Nat := 10
def MinMsgsToSum : Nat := 11

/-- The literal that `compressMessages` puts in front of the summary. -/
def summaryMarker : GoString := lit "[历史摘要] "

/-- The system instruction of the summarization request. -/
def summaryInstruction : GoString :=
  lit "用一句话总结以下对话的核心内容，不超过100字，保留关键事实和数字。"

structure Message where
  Role : GoString
  Content : GoString
deriving DecidableEq, Repr

structure ChatRequest where
  Model : GoString
  Messages : List Message
deriving DecidableEq, Repr

structure Choice where
  Message : Message
deriving DecidableEq, Repr

structure ChatResponse where
  Choices : List Choice
deriving DecidableEq, Repr

/-- The `json.Marshal` of a request, given by the request that a JSON decoder reads back from
the document: every string goes through `jsonString`. -/
def Marshal (req : ChatRequest) : ChatRequest :=
  { Model := jsonString req.Model
    Messages := req.Messages.map
      fun m => { Role := jsonString m.Role, Content := jsonString m.Content } }

/-- Go `error` values: those made by the libraries, and the two made by `summarizeEarly`. -/
inductive GoError where
  | library (code : Nat)
  | gatewayStatus (status : Nat)
  | emptyChoices
deriving DecidableEq, Repr

/-- Go's `http.Header`, a map from a key to its values. -/
abbrev Header := List (GoString × List GoString)

/-- Map assignment `h[k] = v`. -/
def Header.assign (h : Header) (k : GoString) (v : List GoString) : Header :=
  h.filter (fun e => e.1 != k) ++ [(k, v)]

/-- Go's `Header.Set` (the keys used by the program are already in canonical form). -/
def Header.Set (h : Header) (k v : GoString) : Header := h.assign k [v]

/-- An outgoing `*http.Request`. `Body` is the JSON document that the request carries;
`Payload` records the value that was given to `json.Marshal` to make it. -/
structure HttpRequest where
  Method : GoString
  URL : GoString
  Header : Header
  Payload : ChatRequest
  Body : ChatRequest
deriving DecidableEq, Repr

/-- An `*http.Response` with its body read to the end. -/
structure HttpResponse where
  StatusCode : Nat
  Header : Header
  Body : List UInt8
deriving DecidableEq, Repr

/-- The environment of the program. `Do` may answer depending on the requests it has already
received. -/
structure World where
  /-- The `json.Unmarshal` of a request body into a `ChatRequest`. -/
  Unmarshal : List UInt8 → Except GoError ChatRequest
  /-- The `json.NewDecoder(body).Decode` into a `ChatResponse`. -/
  Decode : List UInt8 → Except GoError ChatResponse
  /-- The `http.DefaultClient.Do`, given the requests sent before. -/
  Do : List HttpRequest → HttpRequest → Except GoError HttpResponse

/-- Go's `http.NewRequest`. It fails only on a malformed method or URL, and the program calls it
with the constant method `POST` and the constant `GatewayURL`. -/
def NewRequest (method url : GoString) (payload body : ChatRequest) :
    Except GoError HttpRequest :=
  .ok { Method := method, URL := url, Header := [], Payload := payload, Body := body }

/-! ## The response writer -/

/-- The `http.ResponseWriter` of one request. `header` is the map returned by `w.Header()`;
`WriteHeader` sends the status line together with the map as it is at that moment
(`sentHeader`), and later changes of the map are not sent. -/
structure ResponseWriter where
  header : Header
  wroteHeader : Bool
  status : Nat
  sentHeader : Header
  body : List UInt8
deriving DecidableEq, Repr

/-- The writer handed to the handler. -/
def ResponseWriter.fresh : ResponseWriter :=
  { header := [], wroteHeader := false, status := 0, sentHeader := [], body := [] }

/-- The `w.WriteHeader(code)`: only the first call has an effect. (Codes outside `100..999`,
on which `net/http` panics, are not told apart.) -/
def ResponseWriter.WriteHeader (w : ResponseWriter) (code : Nat) : ResponseWriter :=
  if w.wroteHeader then w
  else { w with wroteHeader := true, status := code, sentHeader := w.header }

/-- The `w.Write(p)`: an implicit `WriteHeader(200)` when none was made, then the bytes. -/
def ResponseWriter.Write (w : ResponseWriter) (p : List UInt8) : ResponseWriter :=
  let w1 := if w.wroteHeader then w else w.WriteHeader 200
  { w1 with body := w1.body ++ p }

/-- The `w.Header()[k] = v`. -/
def ResponseWriter.assignHeader (w : ResponseWriter) (k : GoString) (v : List GoString) :
    ResponseWriter :=
  { w with header := w.header.assign k v }

/-- Go's `http.Error`. -/
def httpError (w : ResponseWriter) (msg : GoString) (code : Nat) : ResponseWriter :=
  let h1 := w.header.Set (lit "Content-Type") (lit "text/plain; charset=utf-8")
  let h2 := h1.Set (lit "X-Content-Type-Options") (lit "nosniff")
  let w1 := { w with header := h2 }
  (w1.WriteHeader code).Write (msg ++ lit "\n")

/-! ## `summarizeEarly` -/

/-- The `n` of `summarizeEarly`. -/
def earlyCount (messages : List Message) : Nat :=
  let n := messages.length / 3
  if n < 1 then 1 else n

/-- The loop `for i := 0; i < n && i < len(messages); i++` of `summarizeEarly`, started at `i`
with the slice `texts`; it runs at most `n` rounds. -/
def collectTexts (messages : List Message) (n : Nat) :
    Nat → Nat → List GoString → List GoString
  | 0, _, texts => texts
  | fuel + 1, i, texts =>
    if h : i < n ∧ i < messages.length then
      collectTexts messages n fuel (i + 1) (texts ++ [(messages.get ⟨i, h.2⟩).Content])
    else texts

/-- The slice `texts` after the loop. -/
def earlyTexts (messages : List Message) : List GoString :=
  collectTexts messages (earlyCount messages) (earlyCount messages) 0 []

/-- The `joint` of `summarizeEarly` before the cut. -/
def jointText (messages : List Message) : GoString :=
  Join (earlyTexts messages) (lit "\n---\n")

/-- The `joint` of `summarizeEarly` after `if len(joint) > 12000`. -/
def userText (messages : List Message) : GoString :=
  let joint := jointText messages
  if joint.length > 12000 then joint.take 12000 ++ lit "..." else joint

/-- The `req` built by `summarizeEarly`. -/
def summaryRequest (messages : List Message) : ChatRequest :=
  { Model := SummarizeModel
    Messages := [
      { Role := lit "system", Content := summaryInstruction },
      { Role := lit "user", Content := userText messages } ] }

/-- The summary made from the content of the first choice: `strings.TrimSpace`, then
`if len(sum) > 150`. -/
def finishSummary (content : GoString) : GoString :=
  let sum := TrimSpace content
  if sum.length > 150 then sum.take 150 ++ lit "..." else sum

/-- The function `summarizeEarly`. Returns the result and the requests handed to `Do` so far. -/
def summarizeEarly (world : World) (log : List HttpRequest) (messages : List Message) :
    Except GoError GoString × List HttpRequest :=
  let req := summaryRequest messages
  let body := Marshal req
  match NewRequest (lit "POST") GatewayURL req body with
  | .error err => (.error err, log)
  | .ok httpReq0 =>
    let httpReq1 := { httpReq0 with
      Header := httpReq0.Header.Set (lit "Authorization") (lit "Bearer " ++ GatewayAPIKey) }
    let httpReq := { httpReq1 with
      Header := httpReq1.Header.Set (lit "Content-Type") (lit "application/json") }
    match world.Do log httpReq with
    | .error err => (.error err, log ++ [httpReq])
    | .ok resp =>
      if resp.StatusCode ≠ 200 then
        (.error (.gatewayStatus resp.StatusCode), log ++ [httpReq])
      else
        match world.Decode resp.Body with
        | .error err => (.error err, log ++ [httpReq])
        | .ok chatResp =>
          match chatResp.Choices with
          | [] => (.error .emptyChoices, log ++ [httpReq])
          | first :: _ => (.ok (finishSummary first.Message.Content), log ++ [httpReq])

/-! ## `compressMessages` -/

/-- The `start` of `compressMessages`, computed on Go's signed `int`. -/
def recentStart (msgs : List Message) : Nat :=
  let start : Int := (msgs.length : Int) - (MaxRecentMsgs : Int)
  let start := if start < 0 then 0 else start
  start.toNat

/-- The function `compressMessages` (the line written to standard error is left out). -/
def compressMessages (world : World) (log : List HttpRequest) (msgs : List Message) :
    List Message × List HttpRequest :=
  if msgs.length < MinMsgsToSum then (msgs, log)
  else
    match summarizeEarly world log msgs with
    | (.error _, log1) => (msgs, log1)
    | (.ok sum, log1) =>
      let recent := msgs.drop (recentStart msgs)
      let compressed : List Message :=
        [{ Role := lit "system", Content := summaryMarker ++ sum }]
      (compressed ++ recent, log1)

/-! ## `proxyHandler` -/

/-- The incoming request: its path and the outcome of `io.ReadAll(r.Body)`. -/
structure Request where
  Path : GoString
  Body : Except GoError (List UInt8)

/-- The statement `if len(req.Messages) > MinMsgsToSum then req.Messages = compressMessages(..)`
of `proxyHandler`. -/
def gatedCompress (world : World) (log : List HttpRequest) (msgs : List Message) :
    List Message × List HttpRequest :=
  if msgs.length > MinMsgsToSum then compressMessages world log msgs else (msgs, log)

/-- The loop `for k, v := range resp.Header` followed over the entries of the map. -/
def copyHeader (w : ResponseWriter) (h : Header) : ResponseWriter :=
  h.foldl (fun acc e => acc.assignHeader e.1 e.2) w

/-- The function `proxyHandler`. Returns the writer as the handler leaves it and the requests
handed to `Do` so far. -/
def proxyHandler (world : World) (log : List HttpRequest) (w : ResponseWriter) (r : Request) :
    ResponseWriter × List HttpRequest :=
  if r.Path ≠ lit "/v1/chat/completions" then (httpError w (lit "Not found") 404, log)
  else
    match r.Body with
    | .error _ => (httpError w (lit "Bad request") 400, log)
    | .ok body =>
      match world.Unmarshal body with
      | .error _ => (httpError w (lit "Invalid JSON") 400, log)
      | .ok req0 =>
        let gated := gatedCompress world log req0.Messages
        let req := { req0 with Messages := gated.1 }
        let newBody := Marshal req
        match NewRequest (lit "POST") GatewayURL req newBody with
        | .error _ => (httpError w (lit "Upstream error") 500, gated.2)
        | .ok httpReq0 =>
          let httpReq1 := { httpReq0 with
            Header := httpReq0.Header.Set (lit "Authorization") (lit "Bearer " ++ GatewayAPIKey) }
          let httpReq := { httpReq1 with
            Header := httpReq1.Header.Set (lit "Content-Type") (lit "application/json") }
          match world.Do gated.2 httpReq with
          | .error _ => (httpError w (lit "Upstream error") 500, gated.2 ++ [httpReq])
          | .ok resp =>
            let w1 := w.WriteHeader resp.StatusCode
            let w2 := copyHeader w1 resp.Header
            (w2.Write resp.Body, gated.2 ++ [httpReq])

/-- The request that both `summarizeEarly` and `proxyHandler` hand to `Do` for a payload. -/
def gatewayPost (payload : ChatRequest) : HttpRequest :=
  { Method := lit "POST"
    URL := GatewayURL
    Header := [(lit "Authorization", [lit "Bearer " ++ GatewayAPIKey]),
      (lit "Content-Type", [lit "application/json"])]
    Payload := payload
    Body := Marshal payload }

/-! ## Concrete inputs -/

/-- A conversation of `n` messages with pairwise different contents. -/
def sampleMsgs (n : Nat) : List Message :=
  (List.range n).map fun i => { Role := lit "user", Content := [UInt8.ofNat (65 + i)] }

/-- A gateway that answers every request with the given status and an empty body, and a decoder
that finds one choice with the given content in every body. -/
def sampleWorld (status : Nat) (content : GoString) (req : ChatRequest) : World :=
  { Unmarshal := fun _ => .ok req
    Decode := fun _ => .ok { Choices := [{ Message := { Role := lit "assistant", Content := content } }] }
    Do := fun _ _ => .ok { StatusCode := status, Header := [], Body := [] } }

/-- A request for the only path that the handler serves. -/
def sampleRequest : Request :=
  { Path := lit "/v1/chat/completions", Body := .ok [] }

/-- Number of bytes of the joint text in front of the content of position `i`: the contents of
the positions before it and one delimiter after each of them. -/
def contentStart (texts : List GoString) (i : Nat) : Nat :=
  ((texts.take i).map List.length).sum + i * (lit "\n---\n").length

/-- Number of bytes of the joint text up to the end of the content of position `i`. -/
def contentEnd (texts : List GoString) (i : Nat) : Nat :=
  contentStart texts i + (texts.getD i []).length

/-- Number of bytes of the joint text that are left after `if len(joint) > 12000`. -/
def keptLength (msgs : List Message) : Nat :=
  if (jointText msgs).length > 12000 then 12000 else (jointText msgs).length

/-- Whether the content of position `i` is given to the summarizer: the loop of
`summarizeEarly` has collected it and all of it lies in the part of the joint text that is left
after the cut. -/
def givenToSummarizer (msgs : List Message) (i : Nat) : Bool :=
  decide (i < (earlyTexts msgs).length) &&
    decide (contentEnd (earlyTexts msgs) i ≤ keptLength msgs)

/-- Whether position `i` is among the messages that `compressMessages` keeps as they are. -/
def retained (msgs : List Message) (i : Nat) : Bool :=
  decide (recentStart msgs ≤ i) && decide (i < msgs.length)

/-- Positions of a conversation whose message is neither given to the summarizer nor kept. -/
def droppedPositions (msgs : List Message) : List Nat :=
  (List.range msgs.length).filter (fun i => !givenToSummarizer msgs i && !retained msgs i)

/-- The three bytes of the character U+4E2D. -/
def cjkChar : GoString := lit "中"

/-- A conversation of 12 messages whose first content is 4002 three-byte characters. -/
def cjkMsgs : List Message :=
  { Role := lit "user", Content := Repeat cjkChar 4002 } :: sampleMsgs 11

/-- A gateway that answers the forwarding call with status 503, one header and a body. -/
def busyWorld : World :=
  { Unmarshal := fun _ => .ok { Model := lit "m", Messages := sampleMsgs 2 }
    Decode := fun _ => .error (.library 0)
    Do := fun _ _ => .ok
      { StatusCode := 503
        Header := [(lit "Retry-After", [lit "30"])]
        Body := lit "busy" } }

/-- A conversation of 12 messages whose first content is the letter `a` followed by 4000
three-byte characters, so that byte 12000 of the joint text falls inside a character. -/
def splitMsgs : List Message :=
  { Role := lit "user", Content := lit "a" ++ Repeat cjkChar 4000 } :: sampleMsgs 11

/-- A conversation of 12 messages whose first content is 12000 bytes long. -/
def longMsgs : List Message :=
  { Role := lit "user", Content := Repeat (lit "x") 12000 } :: sampleMsgs 11

/-! ## Lemmas -/

set_option maxRecDepth 100000

theorem collectTexts_eq (messages : List Message) (n : Nat) :
    ∀ (fuel i : Nat) (texts : List GoString), n - i ≤ fuel →
      collectTexts messages n fuel i texts =
        texts ++ ((messages.take n).drop i).map Message.Content := by
  intro fuel
  induction fuel with
  | zero =>
    intro i texts h
    have hd : (messages.take n).drop i = [] := by
      apply List.drop_eq_nil_of_le
      simp only [List.length_take]
      omega
    simp [collectTexts, hd]
  | succ fuel ih =>
    intro i texts h
    unfold collectTexts
    split
    · rename_i hc
      rw [ih (i + 1) _ (by omega)]
      have hlt : i < (messages.take n).length := by
        simp only [List.length_take]; omega
      rw [List.drop_eq_getElem_cons hlt]
      simp [List.getElem_take]
    · rename_i hc
      have hd : (messages.take n).drop i = [] := by
        apply List.drop_eq_nil_of_le
        simp only [List.length_take]
        omega
      simp [hd]

theorem earlyTexts_eq (messages : List Message) :
    earlyTexts messages = (messages.take (earlyCount messages)).map Message.Content := by
  unfold earlyTexts
  rw [collectTexts_eq messages _ _ 0 [] (by omega)]
  simp

theorem earlyCount_eq (messages : List Message) :
    earlyCount messages = max 1 (messages.length / 3) := by
  unfold earlyCount
  simp only
  split <;> omega

theorem intercalate_append_head (sep a b : GoString) (xs : List GoString) :
    sep.intercalate ((a ++ b) :: xs) = a ++ sep.intercalate (b :: xs) := by
  cases xs with
  | nil => simp [List.intercalate]
  | cons y ys => simp [List.intercalate, List.append_assoc]

theorem foldl_sep_eq (sep : GoString) :
    ∀ (rest : List GoString) (a : GoString),
      rest.foldl (fun b s => b ++ (sep ++ s)) a = sep.intercalate (a :: rest) := by
  intro rest
  induction rest with
  | nil => intro a; simp [List.intercalate]
  | cons x xs ih =>
    intro a
    rw [List.foldl_cons, ih, intercalate_append_head, intercalate_append_head]
    simp [List.intercalate, List.append_assoc]

theorem Join_eq_intercalate (texts : List GoString) (sep : GoString) :
    Join texts sep = sep.intercalate texts := by
  cases texts with
  | nil => simp [Join, List.intercalate]
  | cons a rest => simp [Join, foldl_sep_eq]

theorem header_set_eq :
    Header.Set (Header.Set [] (lit "Authorization") (lit "Bearer " ++ GatewayAPIKey))
      (lit "Content-Type") (lit "application/json") =
    [(lit "Authorization", [lit "Bearer " ++ GatewayAPIKey]),
      (lit "Content-Type", [lit "application/json"])] := by
  decide

theorem summarizeEarly_eq (world : World) (log : List HttpRequest) (msgs : List Message) :
    summarizeEarly world log msgs =
      (match world.Do log (gatewayPost (summaryRequest msgs)) with
        | .error err => .error err
        | .ok resp =>
          if resp.StatusCode ≠ 200 then .error (.gatewayStatus resp.StatusCode)
          else match world.Decode resp.Body with
            | .error err => .error err
            | .ok chatResp =>
              match chatResp.Choices with
              | [] => .error .emptyChoices
              | first :: _ => .ok (finishSummary first.Message.Content),
       log ++ [gatewayPost (summaryRequest msgs)]) := by
  unfold summarizeEarly
  simp only [NewRequest]
  rw [header_set_eq]
  change (match world.Do log (gatewayPost (summaryRequest msgs)) with
    | .error err => _ | .ok resp => _) = _
  cases world.Do log (gatewayPost (summaryRequest msgs)) with
  | error e => rfl
  | ok resp =>
    simp only
    split
    · rfl
    · cases world.Decode resp.Body with
      | error e => rfl
      | ok chatResp =>
        simp only
        cases chatResp.Choices <;> rfl

theorem recentStart_eq (msgs : List Message) : recentStart msgs = msgs.length - 10 := by
  unfold recentStart MaxRecentMsgs
  simp only
  split <;> omega

theorem compressMessages_ok (world : World) (log log1 : List HttpRequest) (msgs : List Message)
    (s : GoString) (hlen : MinMsgsToSum ≤ msgs.length)
    (hsum : summarizeEarly world log msgs = (.ok s, log1)) :
    compressMessages world log msgs =
      ({ Role := lit "system", Content := summaryMarker ++ s } :: msgs.drop (msgs.length - 10),
        log1) := by
  unfold compressMessages
  rw [if_neg (by omega), hsum]
  simp [recentStart_eq]

theorem compressMessages_error (world : World) (log log1 : List HttpRequest)
    (msgs : List Message) (e : GoError)
    (hsum : summarizeEarly world log msgs = (.error e, log1)) :
    (compressMessages world log msgs).1 = msgs := by
  unfold compressMessages
  split
  · rfl
  · rw [hsum]

theorem compressMessages_log (world : World) (log : List HttpRequest) (msgs : List Message)
    (hlen : MinMsgsToSum ≤ msgs.length) :
    (compressMessages world log msgs).2 = log ++ [gatewayPost (summaryRequest msgs)] := by
  unfold compressMessages
  rw [if_neg (by omega)]
  have h := summarizeEarly_eq world log msgs
  generalize summarizeEarly world log msgs = r at h
  obtain ⟨res, l⟩ := r
  have hl : l = log ++ [gatewayPost (summaryRequest msgs)] := congrArg Prod.snd h
  cases res <;> simp [hl]

theorem proxyHandler_calls (world : World) (log : List HttpRequest) (w : ResponseWriter)
    (r : Request) (body : List UInt8) (req : ChatRequest)
    (hpath : r.Path = lit "/v1/chat/completions") (hbody : r.Body = .ok body)
    (hparse : world.Unmarshal body = .ok req) :
    (proxyHandler world log w r).2 =
      (gatedCompress world log req.Messages).2 ++
        [gatewayPost { req with Messages := (gatedCompress world log req.Messages).1 }] := by
  unfold proxyHandler
  rw [if_neg (by simp [hpath])]
  simp only [hbody, hparse, NewRequest]
  rw [header_set_eq]
  split <;> rfl

theorem copyHeader_fields (h : Header) :
    ∀ w : ResponseWriter,
      (copyHeader w h).wroteHeader = w.wroteHeader ∧ (copyHeader w h).status = w.status ∧
        (copyHeader w h).sentHeader = w.sentHeader ∧ (copyHeader w h).body = w.body := by
  induction h with
  | nil => intro w; exact ⟨rfl, rfl, rfl, rfl⟩
  | cons e es ih =>
    intro w
    have h1 := ih (w.assignHeader e.1 e.2)
    simpa [copyHeader, ResponseWriter.assignHeader] using h1

theorem relay_fields (w : ResponseWriter) (resp : HttpResponse)
    (hw : w.wroteHeader = false) :
    ((copyHeader (w.WriteHeader resp.StatusCode) resp.Header).Write resp.Body).status =
        resp.StatusCode ∧
      ((copyHeader (w.WriteHeader resp.StatusCode) resp.Header).Write resp.Body).sentHeader =
        w.header ∧
      ((copyHeader (w.WriteHeader resp.StatusCode) resp.Header).Write resp.Body).body =
        w.body ++ resp.Body := by
  obtain ⟨h1, h2, h3, h4⟩ := copyHeader_fields resp.Header (w.WriteHeader resp.StatusCode)
  have hw1 : (w.WriteHeader resp.StatusCode).wroteHeader = true := by
    simp [ResponseWriter.WriteHeader, hw]
  simp only [ResponseWriter.Write, h1, hw1, if_true, h2, h3, h4]
  simp [ResponseWriter.WriteHeader, hw]

theorem proxyHandler_relay (world : World) (log : List HttpRequest) (w : ResponseWriter)
    (r : Request) (body : List UInt8) (req : ChatRequest) (resp : HttpResponse)
    (hpath : r.Path = lit "/v1/chat/completions") (hbody : r.Body = .ok body)
    (hparse : world.Unmarshal body = .ok req)
    (hdo : world.Do (gatedCompress world log req.Messages).2
      (gatewayPost { req with Messages := (gatedCompress world log req.Messages).1 }) =
        .ok resp) :
    (proxyHandler world log w r).1 =
      (copyHeader (w.WriteHeader resp.StatusCode) resp.Header).Write resp.Body := by
  unfold proxyHandler
  rw [if_neg (by simp [hpath])]
  simp only [hbody, hparse, NewRequest]
  rw [header_set_eq]
  simp only [gatewayPost] at hdo
  rw [hdo]

theorem length_filter_range_between (a : Nat) :
    ∀ (L b : Nat), b ≤ L →
      ((List.range L).filter (fun i => decide (a ≤ i ∧ i < b))).length = b - a := by
  intro L
  induction L with
  | zero => intro b hb; have : b = 0 := by omega
            subst this; simp
  | succ L ih =>
    intro b hb
    rw [List.range_succ, List.filter_append, List.length_append]
    by_cases hbL : b ≤ L
    · rw [ih b hbL]
      have : ¬ (a ≤ L ∧ L < b) := by omega
      simp [this]
    · have hb1 : b = L + 1 := by omega
      subst hb1
      have hcongr : (List.range L).filter (fun i => decide (a ≤ i ∧ i < L + 1)) =
          (List.range L).filter (fun i => decide (a ≤ i ∧ i < L)) := by
        apply List.filter_congr
        intro i hi
        have : i < L := List.mem_range.mp hi
        simp only [decide_eq_decide]
        omega
      rw [hcongr, ih L (le_refl L)]
      have hlast : ([L].filter (fun i => decide (a ≤ i ∧ i < L + 1))).length =
          if a ≤ L then 1 else 0 := by
        by_cases haL : a ≤ L <;> simp [List.filter, haL]
      rw [hlast]
      split <;> omega

theorem length_Repeat (s : GoString) (n : Nat) : (Repeat s n).length = n * s.length := by
  induction n with
  | zero => simp [Repeat]
  | succ n ih => simp only [Repeat, List.length_append, ih]; ring

theorem runeCount_Repeat (s : GoString) (n : Nat) :
    runeCount (Repeat s n) = n * runeCount s := by
  induction n with
  | zero => simp [Repeat, runeCount]
  | succ n ih =>
    have happ : runeCount (s ++ Repeat s n) = runeCount s + runeCount (Repeat s n) := by
      unfold runeCount; exact List.countP_append _ _ _
    rw [Repeat, happ, ih]; ring

theorem jointText_cjkMsgs :
    jointText cjkMsgs = Repeat cjkChar 4002 ++ lit "\n---\nA\n---\nB\n---\nC" := by
  unfold jointText
  rw [Join_eq_intercalate, earlyTexts_eq]
  have hn : earlyCount cjkMsgs = 4 := by decide
  have ht : (sampleMsgs 11).take 3 =
      [⟨lit "user", lit "A"⟩, ⟨lit "user", lit "B"⟩, ⟨lit "user", lit "C"⟩] := by decide
  have htail : lit "\n---\n" ++ (lit "A" ++ (lit "\n---\n" ++ (lit "B" ++
      (lit "\n---\n" ++ lit "C")))) = lit "\n---\nA\n---\nB\n---\nC" := by decide
  rw [hn, ← htail]
  simp [cjkMsgs, ht, List.intercalate]

theorem userText_eq (msgs : List Message) :
    userText msgs =
      if (jointText msgs).length ≤ 12000 then jointText msgs
      else (jointText msgs).take 12000 ++ lit "..." := by
  unfold userText
  simp only
  split <;> split <;> first | rfl | omega

theorem finishSummary_eq (c : GoString) :
    finishSummary c =
      if (TrimSpace c).length ≤ 150 then TrimSpace c
      else (TrimSpace c).take 150 ++ lit "..." := by
  unfold finishSummary
  simp only
  split <;> split <;> first | rfl | omega

theorem length_ellipsis : (lit "...").length = 3 := by decide

/-! ### The JSON encoder -/

theorem sanitizeAcc_eq (s : GoString) :
    ∀ (k : Nat) (acc : GoString), sanitizeAcc k s acc = acc.reverse ++ sanitize k s := by
  induction s with
  | nil => intro k acc; simp [sanitizeAcc, sanitize]
  | cons b rest ih =>
    intro k acc
    cases k with
    | succ k => simp [sanitizeAcc, sanitize, ih]
    | zero =>
      unfold sanitizeAcc sanitize
      cases runeWidth (b :: rest) with
      | zero => simp [ih]
      | succ w => simp [ih]

theorem jsonString_eq (s : GoString) : jsonString s = sanitize 0 s := by
  unfold jsonString
  rw [sanitizeAcc_eq]
  rfl

theorem runeCount_append (a b : GoString) :
    runeCount (a ++ b) = runeCount a + runeCount b := by
  unfold runeCount
  exact List.countP_append _ _ _

theorem runeCount_cons_le (b : UInt8) (s : GoString) :
    runeCount (b :: s) ≤ 1 + runeCount s := by
  have h := runeCount_append [b] s
  have h1 : runeCount [b] ≤ 1 := by
    unfold runeCount
    exact List.countP_le_length _
  simp only [List.singleton_append] at h
  omega

theorem runeCount_sanitize_le (s : GoString) :
    ∀ k : Nat, runeCount (sanitize k s) ≤ s.length := by
  induction s with
  | nil => intro k; simp [sanitize, runeCount]
  | cons b rest ih =>
    intro k
    cases k with
    | succ k =>
      have h1 := runeCount_cons_le b (sanitize k rest)
      have h2 := ih k
      simp only [sanitize, List.length_cons]
      omega
    | zero =>
      unfold sanitize
      cases runeWidth (b :: rest) with
      | zero =>
        have hr : runeCount replacementChar = 1 := by decide
        have h2 := ih 0
        simp only [runeCount_append, hr, List.length_cons]
        omega
      | succ w =>
        have h1 := runeCount_cons_le b (sanitize w rest)
        have h2 := ih w
        simp only [List.length_cons]
        omega

theorem sanitize_of_valid (s : GoString) :
    ∀ k : Nat, validFrom k s = true → sanitize k s = s := by
  induction s with
  | nil => intro k _; simp [sanitize]
  | cons b rest ih =>
    intro k h
    cases k with
    | succ k =>
      simp only [validFrom] at h
      simp [sanitize, ih k h]
    | zero =>
      unfold validFrom at h
      unfold sanitize
      cases hw : runeWidth (b :: rest) with
      | zero => rw [hw] at h; simp at h
      | succ w =>
        rw [hw] at h
        simp only at h
        simp [ih w h]

theorem jsonString_of_valid (s : GoString) (h : ValidString s = true) : jsonString s = s := by
  rw [jsonString_eq]
  exact sanitize_of_valid s 0 h

theorem leadInfo_size_le (a : Nat) : (leadInfo a).1 ≤ 4 := by
  unfold leadInfo
  repeat' split
  all_goals simp

theorem leadInfo_lo (a : Nat) (h : 2 ≤ (leadInfo a).1) : 0x80 ≤ (leadInfo a).2.1 := by
  unfold leadInfo at h ⊢
  repeat' split
  all_goals simp_all

theorem byteIn_lt_length (lo hi : Nat) (s : GoString) (j : Nat)
    (h : byteIn lo hi s[j]? = true) : j < s.length := by
  by_contra hj
  have : s[j]? = none := List.getElem?_eq_none (by omega)
  rw [this] at h
  simp [byteIn] at h

theorem runeWidth_le_length (s : GoString) : runeWidth s ≤ s.length := by
  cases s with
  | nil => simp [runeWidth]
  | cons a rest =>
    unfold runeWidth
    simp only
    have h4 := leadInfo_size_le a.toNat
    split
    · simp only [List.length_cons]; omega
    · split
      · rename_i h1 h
        simp only [Bool.and_eq_true, Bool.or_eq_true, decide_eq_true_eq] at h
        obtain ⟨⟨hb1, hb2⟩, hb3⟩ := h
        have l1 := byteIn_lt_length _ _ _ _ hb1
        have l2 : (leadInfo a.toNat).1 < 3 ∨ 2 < (a :: rest).length :=
          hb2.imp id (byteIn_lt_length _ _ _ _)
        have l3 : (leadInfo a.toNat).1 < 4 ∨ 3 < (a :: rest).length :=
          hb3.imp id (byteIn_lt_length _ _ _ _)
        omega
      · omega

theorem byteIn_ascii (lo hi : Nat) (x : UInt8) (hlo : 0x80 ≤ lo) (hx : x.toNat < 0x80) :
    byteIn lo hi (some x) = false := by
  simp only [byteIn, Bool.and_eq_false_imp, decide_eq_true_eq, decide_eq_false_iff_not]
  intro h
  omega

theorem runeWidth_append (a : UInt8) (rest t : GoString)
    (ht : ∀ x ∈ t.head?, x.toNat < 0x80) :
    runeWidth (a :: rest ++ t) = runeWidth (a :: rest) := by
  unfold runeWidth
  simp only [List.cons_append]
  split
  · rfl
  · rename_i h1
    have hlo := leadInfo_lo a.toNat (by omega)
    generalize (leadInfo a.toNat).2.1 = lo at hlo
    generalize (leadInfo a.toNat).2.2 = hi
    generalize (leadInfo a.toNat).1 = size at h1
    have hnone : ∀ l h : Nat, byteIn l h none = false := fun _ _ => rfl
    rcases rest with _ | ⟨b, _ | ⟨c, _ | ⟨d, rest⟩⟩⟩
    · rcases t with _ | ⟨x, t⟩
      · rfl
      · have hx : x.toNat < 0x80 := ht x (by simp)
        have hb := byteIn_ascii lo hi x hlo hx
        simp [hb, hnone]
    · rcases t with _ | ⟨x, t⟩
      · rfl
      · have hx : x.toNat < 0x80 := ht x (by simp)
        have hb := byteIn_ascii 0x80 0xBF x (by omega) hx
        by_cases h3 : size < 3
        · have h4 : size < 4 := by omega
          simp [h3, h4]
        · simp [h3, hb, hnone]
    · rcases t with _ | ⟨x, t⟩
      · rfl
      · have hx : x.toNat < 0x80 := ht x (by simp)
        have hb := byteIn_ascii 0x80 0xBF x (by omega) hx
        simp [hb, hnone]
    · simp

theorem sanitize_succ_cons (k : Nat) (b : UInt8) (rest : GoString) :
    sanitize (k + 1) (b :: rest) = b :: sanitize k rest := rfl

theorem sanitize_zero_cons (b : UInt8) (rest : GoString) :
    sanitize 0 (b :: rest) =
      match runeWidth (b :: rest) with
      | 0 => replacementChar ++ sanitize 0 rest
      | k + 1 => b :: sanitize k rest := rfl

theorem sanitize_append (t : GoString) (ht : ∀ x ∈ t.head?, x.toNat < 0x80) (s : GoString) :
    ∀ k : Nat, k ≤ s.length → sanitize k (s ++ t) = sanitize k s ++ sanitize 0 t := by
  induction s with
  | nil =>
    intro k hk
    have : k = 0 := by simpa using hk
    subst this
    simp [sanitize]
  | cons b rest ih =>
    intro k hk
    cases k with
    | succ k =>
      simp only [List.length_cons] at hk
      rw [List.cons_append, sanitize_succ_cons, sanitize_succ_cons, ih k (by omega),
        List.cons_append]
    | zero =>
      have hw := runeWidth_append b rest t ht
      have hle := runeWidth_le_length (b :: rest)
      rw [List.cons_append] at hw
      rw [List.cons_append, sanitize_zero_cons, sanitize_zero_cons, hw]
      cases hrw : runeWidth (b :: rest) with
      | zero => simp only [ih 0 (Nat.zero_le _), List.append_assoc]
      | succ w =>
        rw [hrw] at hle
        simp only [List.length_cons] at hle
        simp only [ih w (by omega), List.cons_append]

theorem jsonString_append_ascii (s t : GoString) (ht : ∀ x ∈ t.head?, x.toNat < 0x80) :
    jsonString (s ++ t) = jsonString s ++ jsonString t := by
  rw [jsonString_eq, jsonString_eq, jsonString_eq]
  exact sanitize_append t ht s 0 (Nat.zero_le _)

theorem jsonString_ellipsis (s : GoString) :
    jsonString (s ++ lit "...") = jsonString s ++ lit "..." := by
  rw [jsonString_append_ascii s (lit "...") (by decide)]
  have : jsonString (lit "...") = lit "..." := by decide
  rw [this]

theorem runeCount_jsonString_le (s : GoString) : runeCount (jsonString s) ≤ s.length := by
  rw [jsonString_eq]
  exact runeCount_sanitize_le s 0

theorem body_of_summaryRequest (msgs : List Message) :
    (gatewayPost (summaryRequest msgs)).Body.Messages =
      [{ Role := lit "system", Content := summaryInstruction },
        { Role := lit "user", Content := jsonString (userText msgs) }] := by
  have h1 : jsonString (lit "system") = lit "system" := by decide
  have h2 : jsonString (lit "user") = lit "user" := by decide
  have h3 : jsonString summaryInstruction = summaryInstruction := by decide
  simp [gatewayPost, Marshal, summaryRequest, h1, h2, h3]

theorem carried_eq (msgs : List Message) :
    jsonString (userText msgs) =
      if (jointText msgs).length ≤ 12000 then jsonString (jointText msgs)
      else jsonString ((jointText msgs).take 12000) ++ lit "..." := by
  rw [userText_eq]
  split
  · rfl
  · exact jsonString_ellipsis _

theorem cjkChar_eq : cjkChar = [0xE4, 0xB8, 0xAD] := by decide

theorem runeWidth_cjk (rest : GoString) : runeWidth (cjkChar ++ rest) = 3 := by
  rw [cjkChar_eq]
  have h : leadInfo (0xE4 : UInt8).toNat = (3, 0x80, 0xBF) := by decide
  have h1 : byteIn 0x80 0xBF (some (0xB8 : UInt8)) = true := by decide
  have h2 : byteIn 0x80 0xBF (some (0xAD : UInt8)) = true := by decide
  unfold runeWidth
  simp only [List.cons_append, List.nil_append]
  rw [h]
  simp [h1, h2]

theorem sanitize_cjk (rest : GoString) :
    sanitize 0 (cjkChar ++ rest) = cjkChar ++ sanitize 0 rest := by
  have hw := runeWidth_cjk rest
  rw [cjkChar_eq] at hw ⊢
  simp only [List.cons_append, List.nil_append] at hw ⊢
  rw [sanitize_zero_cons, hw]
  rfl

theorem sanitize_Repeat_cjk (rest : GoString) :
    ∀ n : Nat, sanitize 0 (Repeat cjkChar n ++ rest) = Repeat cjkChar n ++ sanitize 0 rest := by
  intro n
  induction n with
  | zero => simp [Repeat]
  | succ n ih => rw [Repeat, List.append_assoc, sanitize_cjk, ih, List.append_assoc]

theorem take_Repeat_cjk (t : GoString) :
    ∀ n : Nat, (Repeat cjkChar (n + 1) ++ t).take (3 * n + 2) =
      Repeat cjkChar n ++ [0xE4, 0xB8] := by
  intro n
  induction n with
  | zero => simp [Repeat, cjkChar_eq]
  | succ n ih =>
    have h3 : 3 * (n + 1) + 2 = (3 * n + 2) + 3 := by ring
    rw [Repeat, List.append_assoc, h3]
    conv_rhs => rw [Repeat]
    rw [cjkChar_eq] at ih ⊢
    simp only [List.cons_append, List.nil_append, List.take_succ_cons]
    rw [ih]

theorem jointText_splitMsgs :
    jointText splitMsgs =
      lit "a" ++ (Repeat cjkChar 4000 ++ lit "\n---\nA\n---\nB\n---\nC") := by
  unfold jointText
  rw [Join_eq_intercalate, earlyTexts_eq]
  have hn : earlyCount splitMsgs = 4 := by decide
  have ht : (sampleMsgs 11).take 3 =
      [⟨lit "user", lit "A"⟩, ⟨lit "user", lit "B"⟩, ⟨lit "user", lit "C"⟩] := by decide
  have htail : lit "\n---\n" ++ (lit "A" ++ (lit "\n---\n" ++ (lit "B" ++
      (lit "\n---\n" ++ lit "C")))) = lit "\n---\nA\n---\nB\n---\nC" := by decide
  rw [hn, ← htail]
  simp [splitMsgs, ht, List.intercalate]

/-- When the cut falls inside a character, the request carries U+FFFD for each of the bytes
left of it: the user message has 12007 bytes, of which 12004 come from the joint text. -/
theorem split_character_carried :
    (jointText splitMsgs).length = 12019 ∧
    userText splitMsgs = lit "a" ++ (Repeat cjkChar 3999 ++ [0xE4, 0xB8]) ++ lit "..." ∧
    jsonString (userText splitMsgs) =
      lit "a" ++ (Repeat cjkChar 3999 ++ (replacementChar ++ replacementChar)) ++ lit "..." ∧
    (jsonString (userText splitMsgs)).length = 12007 := by
  have hl : cjkChar.length = 3 := by decide
  have ha : lit "a" = [97] := by decide
  have hlen : (jointText splitMsgs).length = 12019 := by
    have htail : (lit "\n---\nA\n---\nB\n---\nC").length = 18 := by decide
    rw [jointText_splitMsgs, List.length_append, List.length_append, length_Repeat, hl, htail,
      ha]
    rfl
  have htake : (jointText splitMsgs).take 12000 =
      lit "a" ++ (Repeat cjkChar 3999 ++ [0xE4, 0xB8]) := by
    rw [jointText_splitMsgs, ha]
    have h := take_Repeat_cjk (lit "\n---\nA\n---\nB\n---\nC") 3999
    have e : (3 * 3999 + 2) + 1 = 12000 := by norm_num
    rw [← e, List.singleton_append, List.take_succ_cons, h, List.singleton_append]
  have hu : userText splitMsgs =
      lit "a" ++ (Repeat cjkChar 3999 ++ [0xE4, 0xB8]) ++ lit "..." := by
    rw [userText_eq, if_neg (by omega), htake]
  have hj : jsonString (userText splitMsgs) =
      lit "a" ++ (Repeat cjkChar 3999 ++ (replacementChar ++ replacementChar)) ++
        lit "..." := by
    rw [hu, jsonString_ellipsis, jsonString_eq, ha]
    have h1 : sanitize 0 ([97] ++ (Repeat cjkChar 3999 ++ [0xE4, 0xB8])) =
        [97] ++ sanitize 0 (Repeat cjkChar 3999 ++ [0xE4, 0xB8]) := by
      have hw : ∀ r : GoString, runeWidth ((97 : UInt8) :: r) = 1 := by
        intro r
        have h : leadInfo (97 : UInt8).toNat = (1, 0, 0) := by decide
        unfold runeWidth
        simp only
        rw [h]
        simp
      rw [List.singleton_append, sanitize_zero_cons, hw, List.singleton_append]
    have h2 : sanitize 0 [0xE4, 0xB8] = replacementChar ++ replacementChar := by decide
    rw [h1, sanitize_Repeat_cjk, h2]
  refine ⟨hlen, hu, hj, ?_⟩
  rw [hj]
  have hr : replacementChar.length = 3 := by decide
  simp only [List.length_append, length_Repeat, hl, hr, length_ellipsis, ha,
    List.length_singleton]

/-! ### Positions in the joint text -/

theorem take_set_of_le {α : Type} (l : List α) (a : α) {n m : Nat} (h : m ≤ n) :
    (l.set n a).take m = l.take m := by
  rw [List.set_take]
  apply List.set_eq_of_length_le
  rw [List.length_take]
  omega

theorem intercalate_cons_cons (sep a b : GoString) (rest : List GoString) :
    sep.intercalate (a :: b :: rest) = a ++ (sep ++ sep.intercalate (b :: rest)) := by
  simp [List.intercalate]

theorem intercalate_split (sep : GoString) :
    ∀ (texts : List GoString) (i : Nat) (c : GoString), texts[i]? = some c →
      ∃ pre post, sep.intercalate texts = pre ++ (c ++ post) ∧
        pre.length = ((texts.take i).map List.length).sum + i * sep.length := by
  intro texts
  induction texts with
  | nil => intro i c h; simp at h
  | cons a rest ih =>
    intro i c h
    cases i with
    | zero =>
      have hc : a = c := by simpa using h
      subst hc
      cases rest with
      | nil => exact ⟨[], [], by simp [List.intercalate], by simp⟩
      | cons b rest =>
        exact ⟨[], sep ++ sep.intercalate (b :: rest), by
          rw [intercalate_cons_cons]; rfl, by simp⟩
    | succ j =>
      cases rest with
      | nil => simp at h
      | cons b rest =>
        have h2 : (b :: rest)[j]? = some c := by simpa using h
        obtain ⟨pre, post, hsplit, hlen⟩ := ih j c h2
        refine ⟨a ++ (sep ++ pre), post, ?_, ?_⟩
        · rw [intercalate_cons_cons, hsplit]
          simp only [List.append_assoc]
        · simp only [List.length_append, hlen, List.take_succ_cons, List.map_cons,
            List.sum_cons]
          ring

theorem earlyTexts_getElem? (msgs : List Message) (i : Nat)
    (hi : i < (earlyTexts msgs).length) :
    (earlyTexts msgs)[i]? = (msgs[i]?).map Message.Content := by
  rw [earlyTexts_eq] at hi ⊢
  rw [List.length_map, List.length_take] at hi
  rw [List.getElem?_map, List.getElem?_take]
  rw [if_pos (by omega)]

theorem given_in_userText (msgs : List Message) (i : Nat) (m : Message)
    (hm : msgs[i]? = some m) (hg : givenToSummarizer msgs i = true) :
    ∃ pre post, userText msgs = pre ++ (m.Content ++ post) ∧
      pre.length = contentStart (earlyTexts msgs) i := by
  unfold givenToSummarizer at hg
  simp only [Bool.and_eq_true, decide_eq_true_eq] at hg
  obtain ⟨hi, hend⟩ := hg
  have hc : (earlyTexts msgs)[i]? = some m.Content := by
    rw [earlyTexts_getElem? msgs i hi, hm]; rfl
  obtain ⟨pre, post, hsplit, hlen⟩ := intercalate_split (lit "\n---\n") _ i _ hc
  have hjoint : jointText msgs = pre ++ (m.Content ++ post) := by
    unfold jointText
    rw [Join_eq_intercalate, hsplit]
  have hstart : pre.length = contentStart (earlyTexts msgs) i := hlen
  have hend2 : pre.length + m.Content.length ≤ keptLength msgs := by
    have : contentEnd (earlyTexts msgs) i =
        contentStart (earlyTexts msgs) i + m.Content.length := by
      unfold contentEnd
      rw [List.getD_eq_getElem?_getD, hc]
      rfl
    omega
  rw [userText_eq]
  split
  · exact ⟨pre, post, hjoint, hstart⟩
  · rename_i hlong
    have hk : keptLength msgs = 12000 := by
      unfold keptLength
      rw [if_pos (by omega)]
    rw [hk] at hend2
    refine ⟨pre, (post.take (12000 - pre.length - m.Content.length)) ++ lit "...", ?_, hstart⟩
    rw [hjoint, List.take_append_eq_append_take, List.take_append_eq_append_take,
      List.take_of_length_le (by omega), List.take_of_length_le (by omega)]
    simp only [List.append_assoc]

theorem earlyTexts_set (msgs : List Message) (i : Nat) (m : Message)
    (h : earlyCount msgs ≤ i) : earlyTexts (msgs.set i m) = earlyTexts msgs := by
  have hn : earlyCount (msgs.set i m) = earlyCount msgs := by
    unfold earlyCount
    rw [List.length_set]
  rw [earlyTexts_eq, earlyTexts_eq, hn, take_set_of_le msgs m h]

theorem summaryRequest_set (msgs : List Message) (i : Nat) (m : Message)
    (h : earlyCount msgs ≤ i) : summaryRequest (msgs.set i m) = summaryRequest msgs := by
  unfold summaryRequest userText jointText
  rw [earlyTexts_set msgs i m h]

theorem compressMessages_set (world : World) (log log1 : List HttpRequest)
    (msgs : List Message) (s : GoString) (i : Nat) (m : Message)
    (hsum : summarizeEarly world log msgs = (.ok s, log1))
    (h1 : earlyCount msgs ≤ i) (h2 : i < recentStart msgs) :
    compressMessages world log (msgs.set i m) = compressMessages world log msgs := by
  have hs : summarizeEarly world log (msgs.set i m) = summarizeEarly world log msgs := by
    rw [summarizeEarly_eq, summarizeEarly_eq, summaryRequest_set msgs i m h1]
  have hr : recentStart (msgs.set i m) = recentStart msgs := by
    unfold recentStart
    rw [List.length_set]
  have hlt : ¬ msgs.length < MinMsgsToSum := by
    intro hl
    have := recentStart_eq msgs
    have h11 : MinMsgsToSum = 11 := rfl
    omega
  unfold compressMessages
  rw [List.length_set, hs, hr, List.drop_set_of_lt m msgs h2, if_neg hlt, if_neg hlt, hsum]

theorem given_of_no_cut (msgs : List Message) (i : Nat)
    (hshort : (jointText msgs).length ≤ 12000) (hi : i < (earlyTexts msgs).length) :
    givenToSummarizer msgs i = true := by
  have hc : (earlyTexts msgs)[i]? = some ((earlyTexts msgs).get ⟨i, hi⟩) := by
    simp
  obtain ⟨pre, post, hsplit, hlen⟩ := intercalate_split (lit "\n---\n") _ i _ hc
  have hjoint : jointText msgs = pre ++ ((earlyTexts msgs).get ⟨i, hi⟩ ++ post) := by
    unfold jointText
    rw [Join_eq_intercalate, hsplit]
  have hk : keptLength msgs = (jointText msgs).length := by
    unfold keptLength
    rw [if_neg (by omega)]
  have hend : contentEnd (earlyTexts msgs) i =
      pre.length + ((earlyTexts msgs).get ⟨i, hi⟩).length := by
    unfold contentEnd contentStart
    rw [List.getD_eq_getElem?_getD, hc, hlen]
    rfl
  unfold givenToSummarizer
  simp only [Bool.and_eq_true, decide_eq_true_eq]
  refine ⟨hi, ?_⟩
  rw [hend, hk, hjoint]
  simp only [List.length_append]
  omega

theorem xChar_eq : lit "x" = [120] := by decide

theorem sanitize_Repeat_x (rest : GoString) :
    ∀ n : Nat, sanitize 0 (Repeat (lit "x") n ++ rest) =
      Repeat (lit "x") n ++ sanitize 0 rest := by
  have hw : ∀ r : GoString, runeWidth ((120 : UInt8) :: r) = 1 := by
    intro r
    have h : leadInfo (120 : UInt8).toNat = (1, 0, 0) := by decide
    unfold runeWidth
    simp only
    rw [h]
    simp
  intro n
  induction n with
  | zero => simp [Repeat]
  | succ n ih =>
    rw [Repeat, xChar_eq, List.singleton_append, List.cons_append, sanitize_zero_cons, hw]
    rw [xChar_eq] at ih
    simp only [ih, List.cons_append]

theorem mem_Repeat (b : UInt8) (s : GoString) : ∀ n : Nat, b ∈ Repeat s n → b ∈ s := by
  intro n
  induction n with
  | zero => intro h; simp [Repeat] at h
  | succ n ih =>
    intro h
    rw [Repeat, List.mem_append] at h
    exact h.elim id ih

theorem jointText_longMsgs :
    jointText longMsgs = Repeat (lit "x") 12000 ++ lit "\n---\nA\n---\nB\n---\nC" := by
  unfold jointText
  rw [Join_eq_intercalate, earlyTexts_eq]
  have hn : earlyCount longMsgs = 4 := by decide
  have ht : (sampleMsgs 11).take 3 =
      [⟨lit "user", lit "A"⟩, ⟨lit "user", lit "B"⟩, ⟨lit "user", lit "C"⟩] := by decide
  have htail : lit "\n---\n" ++ (lit "A" ++ (lit "\n---\n" ++ (lit "B" ++
      (lit "\n---\n" ++ lit "C")))) = lit "\n---\nA\n---\nB\n---\nC" := by decide
  rw [hn, ← htail]
  simp [longMsgs, ht, List.intercalate]

theorem userText_longMsgs : userText longMsgs = Repeat (lit "x") 12000 ++ lit "..." := by
  have hx : (lit "x").length = 1 := by decide
  have hR : (Repeat (lit "x") 12000).length = 12000 := by rw [length_Repeat, hx]
  have hlen : (jointText longMsgs).length = 12018 := by
    have htail : (lit "\n---\nA\n---\nB\n---\nC").length = 18 := by decide
    rw [jointText_longMsgs, List.length_append, hR, htail]
  rw [userText_eq, if_neg (by omega), jointText_longMsgs, List.take_left' hR]

theorem carried_longMsgs :
    jsonString (userText longMsgs) = Repeat (lit "x") 12000 ++ lit "..." := by
  have h : sanitize 0 (lit "...") = lit "..." := by decide
  rw [userText_longMsgs, jsonString_eq, sanitize_Repeat_x, h]

theorem earlyTexts_longMsgs :
    earlyTexts longMsgs = [Repeat (lit "x") 12000, lit "A", lit "B", lit "C"] := by
  have hn : earlyCount longMsgs = 4 := by decide
  have ht : (sampleMsgs 11).take 3 =
      [⟨lit "user", lit "A"⟩, ⟨lit "user", lit "B"⟩, ⟨lit "user", lit "C"⟩] := by decide
  rw [earlyTexts_eq, hn]
  simp [longMsgs, ht]

theorem summarizeEarly_log_eq (world : World) (log : List HttpRequest) (msgs : List Message) :
    (summarizeEarly world log msgs).2 = log ++ [gatewayPost (summaryRequest msgs)] := by
  rw [summarizeEarly_eq]

theorem Marshal_messages_of_valid (req : ChatRequest) :
    (∀ m ∈ req.Messages, ValidString m.Role = true ∧ ValidString m.Content = true) →
      (gatewayPost req).Body.Messages = req.Messages := by
  intro h
  show req.Messages.map
    (fun m => ({ Role := jsonString m.Role, Content := jsonString m.Content } : Message)) =
      req.Messages
  conv_rhs => rw [← List.map_id req.Messages]
  apply List.map_congr_left
  intro m hm
  rw [jsonString_of_valid _ (h m hm).1, jsonString_of_valid _ (h m hm).2]
  rfl

/-! ## The claims -/

/-- C1. A parsed request with at most `MinMsgsToSum = 11` messages makes the handler hand exactly
one request to the gateway, the forwarding request, and its payload is the parsed request itself:
same messages in the same order. No summarization request is made, whatever the world answers. -/
theorem short_request_forwarded_unchanged (world : World) (log : List HttpRequest)
    (w : ResponseWriter) (r : Request) (body : List UInt8) (req : ChatRequest)
    (hpath : r.Path = lit "/v1/chat/completions") (hbody : r.Body = .ok body)
    (hparse : world.Unmarshal body = .ok req) (hlen : req.Messages.length ≤ MinMsgsToSum) :
    (proxyHandler world log w r).2 = log ++ [gatewayPost req] ∧
      (gatewayPost req).Payload.Messages = req.Messages ∧
      gatedCompress world log req.Messages = (req.Messages, log) ∧
      ((∀ m ∈ req.Messages, ValidString m.Role = true ∧ ValidString m.Content = true) →
        (gatewayPost req).Body.Messages = req.Messages) := by
  have hg : gatedCompress world log req.Messages = (req.Messages, log) := by
    unfold gatedCompress
    rw [if_neg (by omega)]
  refine ⟨?_, rfl, hg, Marshal_messages_of_valid req⟩
  rw [proxyHandler_calls world log w r body req hpath hbody hparse, hg]

theorem short_request_forwarded_unchanged_witness :
    (sampleMsgs 5).length ≤ MinMsgsToSum ∧
    (proxyHandler (sampleWorld 200 (lit "s") ⟨lit "m", sampleMsgs 5⟩) [] ResponseWriter.fresh
        sampleRequest).2 = [] ++ [gatewayPost ⟨lit "m", sampleMsgs 5⟩] ∧
      (gatewayPost ⟨lit "m", sampleMsgs 5⟩).Payload.Messages = sampleMsgs 5 ∧
      gatedCompress (sampleWorld 200 (lit "s") ⟨lit "m", sampleMsgs 5⟩) [] (sampleMsgs 5) =
        (sampleMsgs 5, []) ∧
      (gatewayPost ⟨lit "m", sampleMsgs 5⟩).Body.Messages = sampleMsgs 5 :=
  have h := short_request_forwarded_unchanged
    (sampleWorld 200 (lit "s") ⟨lit "m", sampleMsgs 5⟩) []
    ResponseWriter.fresh sampleRequest [] ⟨lit "m", sampleMsgs 5⟩ rfl rfl rfl (by decide)
  ⟨by decide, h.1, h.2.1, h.2.2.1, h.2.2.2 (by decide)⟩

/-- C2. For more than 11 messages and a summary `s` returned by `summarizeEarly`,
`compressMessages` returns the system message `marker ++ s` followed by the last
`min 10 L` messages in their order; the result has `1 + min 10 L = 11` messages. -/
theorem compress_success_shape (world : World) (log log1 : List HttpRequest)
    (msgs : List Message) (s : GoString) (hlen : msgs.length > MinMsgsToSum)
    (hsum : summarizeEarly world log msgs = (.ok s, log1)) :
    compressMessages world log msgs =
        ({ Role := lit "system", Content := lit "[历史摘要] " ++ s } ::
          msgs.drop (msgs.length - min 10 msgs.length), log1) ∧
      (compressMessages world log msgs).1.length = 1 + min 10 msgs.length ∧
      (compressMessages world log msgs).1.length = 11 ∧
      (compressMessages world log msgs).1.head?.map Message.Role = some (lit "system") ∧
      (compressMessages world log msgs).1.head?.map
        (fun m => m.Content.take (lit "[历史摘要] ").length) = some (lit "[历史摘要] ") := by
  have hL : MinMsgsToSum = 11 := rfl
  have hmin : min 10 msgs.length = 10 := by omega
  rw [compressMessages_ok world log log1 msgs s (by omega) hsum, hmin]
  refine ⟨rfl, ?_, ?_, rfl, ?_⟩
  · simp only [List.length_cons, List.length_drop]; omega
  · simp only [List.length_cons, List.length_drop]; omega
  · simp [summaryMarker]

theorem sample_summarize (req : ChatRequest) (log : List HttpRequest) (msgs : List Message) :
    summarizeEarly (sampleWorld 200 (lit " moved to X ") req) log msgs =
      (.ok (lit "moved to X"), log ++ [gatewayPost (summaryRequest msgs)]) := by
  rw [summarizeEarly_eq]
  have h : finishSummary (lit " moved to X ") = lit "moved to X" := by decide
  simp [sampleWorld, h]

theorem compress_success_shape_witness :
    (sampleMsgs 15).length > MinMsgsToSum ∧
    summarizeEarly (sampleWorld 200 (lit " moved to X ") ⟨[], []⟩) [] (sampleMsgs 15) =
      (.ok (lit "moved to X"), [gatewayPost (summaryRequest (sampleMsgs 15))]) ∧
    (compressMessages (sampleWorld 200 (lit " moved to X ") ⟨[], []⟩) [] (sampleMsgs 15)).1 =
      { Role := lit "system", Content := lit "[历史摘要] moved to X" } ::
        (sampleMsgs 15).drop 5 :=
  have h := compress_success_shape (sampleWorld 200 (lit " moved to X ") ⟨[], []⟩) []
    [gatewayPost (summaryRequest (sampleMsgs 15))] (sampleMsgs 15) (lit "moved to X")
    (by decide) (sample_summarize _ _ _)
  ⟨by decide, sample_summarize _ _ _, by rw [h.1]; decide⟩

/-- C3. Fail-open. For a parsed request with more than 11 messages, when the summarization call
fails (the transport fails, the status is not 200, the body does not decode, or the list of
choices is empty), `summarizeEarly` returns an error, the gated step gives back the original
messages, and the handler goes on to hand the forwarding request with the original payload to
the gateway; when that call is answered, the caller gets the answer and not an error. -/
theorem summarization_failure_fails_open (world : World) (log : List HttpRequest)
    (r : Request) (body : List UInt8) (req : ChatRequest)
    (hpath : r.Path = lit "/v1/chat/completions") (hbody : r.Body = .ok body)
    (hparse : world.Unmarshal body = .ok req) (hlen : req.Messages.length > MinMsgsToSum)
    (hfail :
      (∃ e, world.Do log (gatewayPost (summaryRequest req.Messages)) = .error e) ∨
      (∃ resp, world.Do log (gatewayPost (summaryRequest req.Messages)) = .ok resp ∧
        (resp.StatusCode ≠ 200 ∨ (∃ e, world.Decode resp.Body = .error e) ∨
          world.Decode resp.Body = .ok { Choices := [] }))) :
    (∃ e, summarizeEarly world log req.Messages =
      (.error e, log ++ [gatewayPost (summaryRequest req.Messages)])) ∧
    gatedCompress world log req.Messages =
      (req.Messages, log ++ [gatewayPost (summaryRequest req.Messages)]) ∧
    (proxyHandler world log ResponseWriter.fresh r).2 =
      log ++ [gatewayPost (summaryRequest req.Messages), gatewayPost req] ∧
    (∀ resp, world.Do (log ++ [gatewayPost (summaryRequest req.Messages)]) (gatewayPost req) =
        .ok resp →
      (proxyHandler world log ResponseWriter.fresh r).1.status = resp.StatusCode ∧
        (proxyHandler world log ResponseWriter.fresh r).1.body = resp.Body) ∧
    ((∀ m ∈ req.Messages, ValidString m.Role = true ∧ ValidString m.Content = true) →
      (gatewayPost req).Body.Messages = req.Messages) := by
  have hL : MinMsgsToSum = 11 := rfl
  have herr : ∃ e, summarizeEarly world log req.Messages =
      (.error e, log ++ [gatewayPost (summaryRequest req.Messages)]) := by
    rw [summarizeEarly_eq]
    rcases hfail with ⟨e, he⟩ | ⟨resp, hr, hcase⟩
    · exact ⟨e, by rw [he]⟩
    · rw [hr]
      by_cases hs : resp.StatusCode ≠ 200
      · exact ⟨.gatewayStatus resp.StatusCode, by simp only [if_pos hs]⟩
      · simp only [if_neg hs]
        rcases hcase with h | ⟨e, he⟩ | he
        · exact absurd h hs
        · exact ⟨e, by rw [he]⟩
        · exact ⟨.emptyChoices, by rw [he]⟩
  obtain ⟨e, he⟩ := herr
  have hg : gatedCompress world log req.Messages =
      (req.Messages, log ++ [gatewayPost (summaryRequest req.Messages)]) := by
    unfold gatedCompress
    rw [if_pos hlen]
    apply Prod.ext
    · exact compressMessages_error world log _ req.Messages e he
    · exact compressMessages_log world log req.Messages (by omega)
  refine ⟨⟨e, he⟩, hg, ?_, ?_, Marshal_messages_of_valid req⟩
  · rw [proxyHandler_calls world log _ r body req hpath hbody hparse, hg]
    simp
  · intro resp hdo
    have hrel := proxyHandler_relay world log ResponseWriter.fresh r body req resp hpath hbody
      hparse (by rw [hg]; exact hdo)
    rw [hrel]
    have hf := relay_fields ResponseWriter.fresh resp rfl
    exact ⟨hf.1, by rw [hf.2.2]; rfl⟩

theorem summarization_failure_fails_open_witness :
    (sampleMsgs 15).length > MinMsgsToSum ∧
    (proxyHandler (sampleWorld 500 [] ⟨lit "m", sampleMsgs 15⟩) [] ResponseWriter.fresh
      sampleRequest).2 =
      [gatewayPost (summaryRequest (sampleMsgs 15)), gatewayPost ⟨lit "m", sampleMsgs 15⟩] :=
  ⟨by decide,
    (summarization_failure_fails_open (sampleWorld 500 [] ⟨lit "m", sampleMsgs 15⟩) []
      sampleRequest [] ⟨lit "m", sampleMsgs 15⟩ rfl rfl rfl (by decide)
      (Or.inr ⟨⟨500, [], []⟩, rfl, Or.inl (by decide)⟩)).2.2.1⟩

/-- C6. Through the gate, compression is a one-shot reduction: for more than 11 messages and a
summary returned by `summarizeEarly`, the gated step gives at most 11 messages, and the gated
step applied to that result, in any world, returns it unchanged and makes no call. -/
theorem gated_compress_fixed_point (world : World) (log log1 : List HttpRequest)
    (msgs : List Message) (s : GoString) (hlen : msgs.length > MinMsgsToSum)
    (hsum : summarizeEarly world log msgs = (.ok s, log1)) :
    (gatedCompress world log msgs).1.length ≤ 11 ∧
      ∀ (world2 : World) (log2 : List HttpRequest),
        gatedCompress world2 log2 (gatedCompress world log msgs).1 =
          ((gatedCompress world log msgs).1, log2) := by
  have hL : MinMsgsToSum = 11 := rfl
  have hlen1 : (gatedCompress world log msgs).1.length = 11 := by
    unfold gatedCompress
    rw [if_pos hlen, compressMessages_ok world log log1 msgs s (by omega) hsum]
    simp only [List.length_cons, List.length_drop]
    omega
  refine ⟨by omega, ?_⟩
  intro world2 log2
  generalize (gatedCompress world log msgs).1 = out at hlen1
  unfold gatedCompress
  rw [if_neg (by omega)]

theorem gated_compress_fixed_point_witness :
    (sampleMsgs 15).length > MinMsgsToSum ∧
    (gatedCompress (sampleWorld 200 (lit " moved to X ") ⟨[], []⟩) [] (sampleMsgs 15)).1.length
      ≤ 11 ∧
    ∀ (world2 : World) (log2 : List HttpRequest),
      gatedCompress world2 log2
        (gatedCompress (sampleWorld 200 (lit " moved to X ") ⟨[], []⟩) [] (sampleMsgs 15)).1 =
      ((gatedCompress (sampleWorld 200 (lit " moved to X ") ⟨[], []⟩) [] (sampleMsgs 15)).1,
        log2) :=
  ⟨by decide,
    gated_compress_fixed_point (sampleWorld 200 (lit " moved to X ") ⟨[], []⟩) [] _
      (sampleMsgs 15) (lit "moved to X") (by decide) (sample_summarize _ _ _)⟩

/-- C7. For a non-empty sequence of `L` messages, the joint text of `summarizeEarly` before the
cut is the contents of the first `n = max 1 (L / 3)` messages, in order, with the delimiter
between consecutive contents and nowhere else; these are exactly `n` messages. -/
theorem joint_text_is_joined_head (msgs : List Message) (hne : msgs ≠ []) :
    jointText msgs =
        (lit "\n---\n").intercalate
          ((msgs.take (max 1 (msgs.length / 3))).map Message.Content) ∧
      (msgs.take (max 1 (msgs.length / 3))).length = max 1 (msgs.length / 3) := by
  constructor
  · unfold jointText
    rw [Join_eq_intercalate, earlyTexts_eq, earlyCount_eq]
  · have hpos : 0 < msgs.length := List.length_pos.mpr hne
    rw [List.length_take]
    omega

theorem joint_text_is_joined_head_witness :
    sampleMsgs 7 ≠ [] ∧
    jointText (sampleMsgs 7) = lit "A\n---\nB" ∧
    ((sampleMsgs 7).take (max 1 ((sampleMsgs 7).length / 3))).length = 2 :=
  have h := joint_text_is_joined_head (sampleMsgs 7) (by decide)
  ⟨by decide, by rw [h.1]; decide, by rw [h.2]; decide⟩

/-- C10, the claim as stated fails: in a conversation of 12 messages whose first content has
12000 bytes, the cut of the joint text leaves nothing of the content `A` of position 1 in the
request, and position 1 is not kept either, although `L ≤ 15`. -/
theorem coverage_gap_counterexample :
    longMsgs.length = 12 ∧ longMsgs.length ≤ 15 ∧
    longMsgs[1]? = some { Role := lit "user", Content := lit "A" } ∧
    (summarizeEarly (sampleWorld 200 (lit " moved to X ") ⟨[], []⟩) [] longMsgs).2 =
      [gatewayPost (summaryRequest longMsgs)] ∧
    (gatewayPost (summaryRequest longMsgs)).Body.Messages.map Message.Content =
      [summaryInstruction, Repeat (lit "x") 12000 ++ lit "..."] ∧
    (65 : UInt8) ∉ Repeat (lit "x") 12000 ++ lit "..." ∧
    (compressMessages (sampleWorld 200 (lit " moved to X ") ⟨[], []⟩) [] longMsgs).1 =
      { Role := lit "system", Content := lit "[历史摘要] moved to X" } ::
        (sampleMsgs 11).drop 1 ∧
    givenToSummarizer longMsgs 1 = false ∧ retained longMsgs 1 = false ∧
    1 ∈ droppedPositions longMsgs ∧ droppedPositions longMsgs ≠ [] := by
  have hL : longMsgs.length = 12 := by decide
  have hx : (lit "x").length = 1 := by decide
  have hgiven : givenToSummarizer longMsgs 1 = false := by
    have hk : keptLength longMsgs = 12000 := by
      have htail : (lit "\n---\nA\n---\nB\n---\nC").length = 18 := by decide
      unfold keptLength
      rw [jointText_longMsgs, List.length_append, length_Repeat, hx, htail]
      rfl
    have hend : contentEnd (earlyTexts longMsgs) 1 = 12006 := by
      have hsep : (lit "\n---\n").length = 5 := by decide
      have hA : (lit "A").length = 1 := by decide
      rw [earlyTexts_longMsgs]
      simp [contentEnd, contentStart, length_Repeat, hx, hsep, hA]
    unfold givenToSummarizer
    rw [hend, hk]
    simp
  have hret : retained longMsgs 1 = false := by
    unfold retained
    rw [recentStart_eq, hL]
    decide
  have hmem : 1 ∈ droppedPositions longMsgs := by
    unfold droppedPositions
    rw [List.mem_filter, List.mem_range, hgiven, hret, hL]
    exact ⟨by omega, rfl⟩
  refine ⟨hL, by omega, by decide, ?_, ?_, ?_, ?_, hgiven, hret, hmem, ?_⟩
  · rw [sample_summarize, List.nil_append]
  · rw [body_of_summaryRequest, List.map_cons, List.map_cons, List.map_nil, carried_longMsgs]
  · intro h
    rw [List.mem_append] at h
    rcases h with h | h
    · have := mem_Repeat _ _ _ h
      revert this
      decide
    · revert h
      decide
  · rw [compressMessages_ok _ [] _ longMsgs (lit "moved to X") (by rw [hL]; decide)
      (sample_summarize _ _ _), hL]
    have hm : summaryMarker ++ lit "moved to X" = lit "[历史摘要] moved to X" := by decide
    rw [hm]
    rfl
  · intro h
    rw [h] at hmem
    simp at hmem

/-- C10, amended. For more than 11 messages compressed with success: the request carries the
user text, the result keeps positions `L - 10 .. L - 1`, and a content counts as given to the
summarizer when it is collected and lies in the part of the joint text left by the cut at 12000
bytes, in which case it stands in the user text of the request. A position with
`L/3 ≤ i < L - 10` is neither given nor kept, and replacing its message changes neither the
request nor the result; such a position exists exactly when `16 ≤ L`. When the joint text has at
most 12000 bytes these are all the positions left out: none for `L ≤ 15`, and `L - 10 - L/3`
of them for `16 ≤ L`. -/
theorem coverage_gap (world : World) (log log1 : List HttpRequest) (msgs : List Message)
    (s : GoString) (hlen : msgs.length > MinMsgsToSum)
    (hsum : summarizeEarly world log msgs = (.ok s, log1)) :
    log1 = log ++ [gatewayPost (summaryRequest msgs)] ∧
    (gatewayPost (summaryRequest msgs)).Body.Messages.map Message.Content =
      [summaryInstruction, jsonString (userText msgs)] ∧
    earlyTexts msgs = (msgs.take (msgs.length / 3)).map Message.Content ∧
    (compressMessages world log msgs).1.tail = msgs.drop (msgs.length - 10) ∧
    (∀ i m, msgs[i]? = some m → givenToSummarizer msgs i = true →
      i < msgs.length / 3 ∧
        ∃ pre post, userText msgs = pre ++ (m.Content ++ post) ∧
          pre.length = contentStart (earlyTexts msgs) i) ∧
    (∀ i, retained msgs i = true ↔ msgs.length - 10 ≤ i ∧ i < msgs.length) ∧
    (∀ i, msgs.length / 3 ≤ i → i < msgs.length - 10 →
      givenToSummarizer msgs i = false ∧ retained msgs i = false ∧
        i ∈ droppedPositions msgs ∧
        ∀ m, summaryRequest (msgs.set i m) = summaryRequest msgs ∧
          compressMessages world log (msgs.set i m) = compressMessages world log msgs) ∧
    ((∃ i, msgs.length / 3 ≤ i ∧ i < msgs.length - 10) ↔ 16 ≤ msgs.length) ∧
    ((jointText msgs).length ≤ 12000 →
      (∀ i, i ∈ droppedPositions msgs ↔ msgs.length / 3 ≤ i ∧ i < msgs.length - 10) ∧
      (msgs.length ≤ 15 → droppedPositions msgs = []) ∧
      (16 ≤ msgs.length →
        (droppedPositions msgs).length = msgs.length - 10 - msgs.length / 3)) := by
  have hL : MinMsgsToSum = 11 := rfl
  have hn : earlyCount msgs = msgs.length / 3 := by rw [earlyCount_eq]; omega
  have htexts : (earlyTexts msgs).length = msgs.length / 3 := by
    rw [earlyTexts_eq, hn, List.length_map, List.length_take]; omega
  have hstart : recentStart msgs = msgs.length - 10 := recentStart_eq msgs
  have hgiven_lt : ∀ i, givenToSummarizer msgs i = true → i < msgs.length / 3 := by
    intro i hg
    unfold givenToSummarizer at hg
    simp only [Bool.and_eq_true, decide_eq_true_eq] at hg
    omega
  have hret : ∀ i, retained msgs i = true ↔ msgs.length - 10 ≤ i ∧ i < msgs.length := by
    intro i
    unfold retained
    rw [hstart]
    simp only [Bool.and_eq_true, decide_eq_true_eq]
  have hgap_given : ∀ i, msgs.length / 3 ≤ i → givenToSummarizer msgs i = false := by
    intro i hi
    cases hg : givenToSummarizer msgs i with
    | false => rfl
    | true => have := hgiven_lt i hg; omega
  have hgap_ret : ∀ i, i < msgs.length - 10 → retained msgs i = false := by
    intro i hi
    cases hr : retained msgs i with
    | false => rfl
    | true => have := (hret i).mp hr; omega
  have hmem_gap : ∀ i, msgs.length / 3 ≤ i → i < msgs.length - 10 →
      i ∈ droppedPositions msgs := by
    intro i h1 h2
    unfold droppedPositions
    rw [List.mem_filter, List.mem_range, hgap_given i h1, hgap_ret i h2]
    exact ⟨by omega, rfl⟩
  refine ⟨?_, ?_, ?_, ?_, ?_, hret, ?_, ?_, ?_⟩
  · have h := summarizeEarly_log_eq world log msgs
    rw [hsum] at h
    exact h
  · rw [body_of_summaryRequest, List.map_cons, List.map_cons, List.map_nil]
  · rw [earlyTexts_eq, hn]
  · rw [compressMessages_ok world log log1 msgs s (by omega) hsum]
    rfl
  · intro i m hm hg
    exact ⟨hgiven_lt i hg, given_in_userText msgs i m hm hg⟩
  · intro i h1 h2
    refine ⟨hgap_given i h1, hgap_ret i h2, hmem_gap i h1 h2, ?_⟩
    intro m
    exact ⟨summaryRequest_set msgs i m (by omega),
      compressMessages_set world log log1 msgs s i m hsum (by omega) (by omega)⟩
  · constructor
    · rintro ⟨i, hi⟩
      omega
    · intro h16
      exact ⟨msgs.length / 3, by omega⟩
  · intro hshort
    have hmem : ∀ i, i ∈ droppedPositions msgs ↔
        msgs.length / 3 ≤ i ∧ i < msgs.length - 10 := by
      intro i
      constructor
      · intro hi
        unfold droppedPositions at hi
        rw [List.mem_filter, List.mem_range] at hi
        obtain ⟨hlt, hb⟩ := hi
        simp only [Bool.and_eq_true, Bool.not_eq_true'] at hb
        obtain ⟨hg, hr⟩ := hb
        have h1 : msgs.length / 3 ≤ i := by
          by_contra hc
          have := given_of_no_cut msgs i hshort (by omega)
          rw [this] at hg
          exact Bool.noConfusion hg
        have h2 : i < msgs.length - 10 := by
          by_contra hc
          have := (hret i).mpr ⟨by omega, hlt⟩
          rw [this] at hr
          exact Bool.noConfusion hr
        exact ⟨h1, h2⟩
      · intro hi
        exact hmem_gap i hi.1 hi.2
    have hfilter : droppedPositions msgs = (List.range msgs.length).filter
        (fun i => decide (msgs.length / 3 ≤ i ∧ i < msgs.length - 10)) := by
      unfold droppedPositions
      apply List.filter_congr
      intro i hi
      have hi2 : i < msgs.length := List.mem_range.mp hi
      have h := hmem i
      unfold droppedPositions at h
      rw [List.mem_filter, List.mem_range] at h
      by_cases hc : msgs.length / 3 ≤ i ∧ i < msgs.length - 10
      · rw [(h.mpr hc).2, decide_eq_true hc]
      · rw [decide_eq_false hc]
        cases hb : (!givenToSummarizer msgs i && !retained msgs i) with
        | false => rfl
        | true => exact absurd (h.mp ⟨hi2, hb⟩) hc
    refine ⟨hmem, ?_, ?_⟩
    · intro h15
      apply List.eq_nil_iff_forall_not_mem.mpr
      intro i hi
      have := (hmem i).mp hi
      omega
    · intro _
      rw [hfilter]
      exact length_filter_range_between _ _ _ (by omega)

theorem coverage_gap_witness :
    (sampleMsgs 18).length > MinMsgsToSum ∧
    (jointText (sampleMsgs 18)).length ≤ 12000 ∧
    droppedPositions (sampleMsgs 18) = [6, 7] ∧
    (16 ≤ (sampleMsgs 18).length →
      (droppedPositions (sampleMsgs 18)).length =
        (sampleMsgs 18).length - 10 - (sampleMsgs 18).length / 3) :=
  ⟨by decide, by decide, by decide,
    ((coverage_gap (sampleWorld 200 (lit " moved to X ") ⟨[], []⟩) [] _ (sampleMsgs 18)
      (lit "moved to X") (by decide) (sample_summarize _ _ _)).2.2.2.2.2.2.2.2
        (by decide)).2.2⟩

/-- C8, the claim as stated fails: the joint text of a conversation of 12 messages has 4020
characters, far below 12000, and the user message that the request carries is not the joint
text: the text is cut all the same, because it has 12024 bytes. -/
theorem user_message_cut_counterexample :
    runeCount (jointText cjkMsgs) = 4020 ∧ runeCount (jointText cjkMsgs) ≤ 12000 ∧
      (gatewayPost (summaryRequest cjkMsgs)).Body.Messages.map Message.Content =
        [summaryInstruction, jsonString (userText cjkMsgs)] ∧
      jsonString (userText cjkMsgs) ≠ jointText cjkMsgs ∧
      userText cjkMsgs ≠ jointText cjkMsgs ∧
      (jointText cjkMsgs).length = 12024 ∧ (userText cjkMsgs).length = 12003 := by
  have hc : runeCount cjkChar = 1 := by decide
  have hl : cjkChar.length = 3 := by decide
  have hrc : runeCount (jointText cjkMsgs) = 4020 := by
    have htail : runeCount (lit "\n---\nA\n---\nB\n---\nC") = 18 := by decide
    rw [jointText_cjkMsgs, runeCount_append, runeCount_Repeat, hc, htail]
  have hlen : (jointText cjkMsgs).length = 12024 := by
    have htail : (lit "\n---\nA\n---\nB\n---\nC").length = 18 := by decide
    rw [jointText_cjkMsgs, List.length_append, length_Repeat, hl, htail]
  have hu : userText cjkMsgs = (jointText cjkMsgs).take 12000 ++ lit "..." := by
    rw [userText_eq, if_neg (by omega)]
  have hul : (userText cjkMsgs).length = 12003 := by
    rw [hu, List.length_append, List.length_take, length_ellipsis, hlen]
    rfl
  have hcar : jsonString (userText cjkMsgs) =
      jsonString ((jointText cjkMsgs).take 12000) ++ lit "..." := by
    rw [carried_eq, if_neg (by omega)]
  refine ⟨hrc, by omega, by rw [body_of_summaryRequest, List.map_cons, List.map_cons, List.map_nil], ?_, ?_, hlen, hul⟩
  · intro h
    have h2 := congrArg List.getLast? h
    rw [hcar, jointText_cjkMsgs] at h2
    have e1 : lit "..." = [46, 46, 46] := by decide
    have e2 : lit "\n---\nA\n---\nB\n---\nC" =
        [10, 45, 45, 45, 10, 65, 10, 45, 45, 45, 10, 66, 10, 45, 45, 45, 10, 67] := by decide
    rw [e1, e2] at h2
    generalize jsonString (List.take 12000 _) = kept at h2
    generalize Repeat cjkChar 4002 = head at h2
    simp at h2
  · intro h
    rw [h, hlen] at hul
    omega

/-- C8, amended. The user message that the summarization request carries is the JSON encoding
of the joint text when the joint text has at most 12000 bytes, and otherwise the JSON encoding
of its first 12000 bytes, followed by `...`. The encoding leaves well-formed UTF-8 unchanged
and writes U+FFFD for each byte of a character that the cut has split. The part kept from the
joint text never has more than 12000 characters, multi-byte text included. -/
theorem user_message_cut_as_carried (world : World) (log : List HttpRequest)
    (msgs : List Message) :
    (summarizeEarly world log msgs).2 = log ++ [gatewayPost (summaryRequest msgs)] ∧
    (gatewayPost (summaryRequest msgs)).Payload.Messages =
      [{ Role := lit "system", Content := summaryInstruction },
        { Role := lit "user", Content :=
          if (jointText msgs).length ≤ 12000 then jointText msgs
          else (jointText msgs).take 12000 ++ lit "..." }] ∧
    (gatewayPost (summaryRequest msgs)).Body.Messages =
      [{ Role := lit "system", Content := summaryInstruction },
        { Role := lit "user", Content :=
          if (jointText msgs).length ≤ 12000 then jsonString (jointText msgs)
          else jsonString ((jointText msgs).take 12000) ++ lit "..." }] ∧
    (ValidString (jointText msgs) = true → jsonString (jointText msgs) = jointText msgs) ∧
    (ValidString ((jointText msgs).take 12000) = true →
      jsonString ((jointText msgs).take 12000) = (jointText msgs).take 12000) ∧
    ((jointText msgs).take 12000).length = min 12000 (jointText msgs).length ∧
    runeCount (jsonString ((jointText msgs).take 12000)) ≤ 12000 := by
  refine ⟨?_, ?_, ?_, jsonString_of_valid _, jsonString_of_valid _, List.length_take _ _, ?_⟩
  · rw [summarizeEarly_eq]
  · show (summaryRequest msgs).Messages = _
    unfold summaryRequest
    rw [userText_eq]
  · rw [body_of_summaryRequest, carried_eq]
  · refine le_trans (runeCount_jsonString_le _) ?_
    rw [List.length_take]
    omega

theorem user_message_cut_as_carried_witness :
    (gatewayPost (summaryRequest (sampleMsgs 12))).Body.Messages =
      [{ Role := lit "system", Content := summaryInstruction },
        { Role := lit "user", Content := lit "A\n---\nB\n---\nC\n---\nD" }] :=
  (user_message_cut_as_carried (sampleWorld 200 [] ⟨[], []⟩) [] (sampleMsgs 12)).2.2.1.trans
    (by decide)

/-- C9, the claim as stated fails: a first choice of 100 characters without surrounding white
space, below 150, is not returned as it is, because it has 300 bytes: the summary is its first
150 bytes, which are 50 characters, followed by `...`. -/
theorem summary_cut_counterexample :
    TrimSpace (Repeat cjkChar 100) = Repeat cjkChar 100 ∧
    runeCount (TrimSpace (Repeat cjkChar 100)) = 100 ∧
    (summarizeEarly (sampleWorld 200 (Repeat cjkChar 100) ⟨[], []⟩) [] (sampleMsgs 12)).1 =
      .ok (Repeat cjkChar 50 ++ lit "...") ∧
    (summarizeEarly (sampleWorld 200 (Repeat cjkChar 100) ⟨[], []⟩) [] (sampleMsgs 12)).1 ≠
      .ok (TrimSpace (Repeat cjkChar 100)) := by
  have ht : TrimSpace (Repeat cjkChar 100) = Repeat cjkChar 100 := by decide
  have hf : finishSummary (Repeat cjkChar 100) = Repeat cjkChar 50 ++ lit "..." := by decide
  have hs : (summarizeEarly (sampleWorld 200 (Repeat cjkChar 100) ⟨[], []⟩) []
      (sampleMsgs 12)).1 = .ok (Repeat cjkChar 50 ++ lit "...") := by
    rw [summarizeEarly_eq]
    simp [sampleWorld, hf]
  refine ⟨ht, by decide, hs, ?_⟩
  rw [hs, ht]
  intro h
  have h2 := congrArg (fun r => match r with
    | Except.ok (v : GoString) => v.length
    | Except.error (_ : GoError) => 0) h
  revert h2
  decide

/-- C9, amended to bytes. When the summarization call is answered with status 200 and a body
that decodes to a non-empty list of choices, `summarizeEarly` returns the trimmed content of
the first choice when that has at most 150 bytes, and otherwise its first 150 bytes followed by
`...`; the summary has at most 153 bytes. -/
theorem summary_cut_in_bytes (world : World) (log : List HttpRequest) (msgs : List Message)
    (resp : HttpResponse) (first : Choice) (rest : List Choice)
    (hdo : world.Do log (gatewayPost (summaryRequest msgs)) = .ok resp)
    (hstatus : resp.StatusCode = 200)
    (hdec : world.Decode resp.Body = .ok { Choices := first :: rest }) :
    (summarizeEarly world log msgs).1 =
      .ok (if (TrimSpace first.Message.Content).length ≤ 150 then
          TrimSpace first.Message.Content
        else (TrimSpace first.Message.Content).take 150 ++ lit "...") ∧
    (finishSummary first.Message.Content).length ≤ 153 ∧
    (summarizeEarly world log msgs).1 = .ok (finishSummary first.Message.Content) := by
  have hs : (summarizeEarly world log msgs).1 = .ok (finishSummary first.Message.Content) := by
    rw [summarizeEarly_eq, hdo]
    simp only [hstatus, hdec]
    simp
  refine ⟨by rw [hs, finishSummary_eq], ?_, hs⟩
  rw [finishSummary_eq]
  split
  · omega
  · rw [List.length_append, List.length_take, length_ellipsis]; omega

theorem summary_cut_in_bytes_witness :
    (summarizeEarly (sampleWorld 200 (lit " moved to X ") ⟨[], []⟩) [] (sampleMsgs 12)).1 =
      .ok (lit "moved to X") :=
  (summary_cut_in_bytes (sampleWorld 200 (lit " moved to X ") ⟨[], []⟩) [] (sampleMsgs 12)
    ⟨200, [], []⟩ ⟨⟨lit "assistant", lit " moved to X "⟩⟩ [] rfl rfl rfl).1.trans
    (congrArg Except.ok (by decide))

/-- C4, the code at an upstream answer with status 503, the header `Retry-After: 30` and the
body `busy`: the caller gets status 503 and the body `busy`, but none of the upstream headers,
because the handler assigns them to the header map after `WriteHeader` has sent the status
line with the map still empty. -/
theorem relay_drops_upstream_headers :
    (proxyHandler busyWorld [] ResponseWriter.fresh sampleRequest).1.status = 503 ∧
    (proxyHandler busyWorld [] ResponseWriter.fresh sampleRequest).1.body = lit "busy" ∧
    (proxyHandler busyWorld [] ResponseWriter.fresh sampleRequest).1.header =
      [(lit "Retry-After", [lit "30"])] ∧
    (proxyHandler busyWorld [] ResponseWriter.fresh sampleRequest).1.sentHeader = [] ∧
    (proxyHandler busyWorld [] ResponseWriter.fresh sampleRequest).1.sentHeader ≠
      [(lit "Retry-After", [lit "30"])] := by
  decide

/-- C5, the code at exactly 11 messages: `compressMessages` called directly does not return
the sequence unchanged; it makes the summarization call and replaces the first message by the
summary message, while the gate of the handler at the same input makes no call. -/
theorem direct_compress_at_threshold :
    compressMessages (sampleWorld 200 (lit " moved to X ") ⟨[], []⟩) [] (sampleMsgs 11) =
      ({ Role := lit "system", Content := lit "[历史摘要] moved to X" } ::
        (sampleMsgs 11).drop 1, [gatewayPost (summaryRequest (sampleMsgs 11))]) ∧
    (compressMessages (sampleWorld 200 (lit " moved to X ") ⟨[], []⟩) []
      (sampleMsgs 11)).1 ≠ sampleMsgs 11 ∧
    (compressMessages (sampleWorld 200 (lit " moved to X ") ⟨[], []⟩) []
      (sampleMsgs 11)).2 ≠ [] ∧
    gatedCompress (sampleWorld 200 (lit " moved to X ") ⟨[], []⟩) [] (sampleMsgs 11) =
      (sampleMsgs 11, []) := by
  decide

end ZeptoProxy
